import Mathlib

/-!
Shallow embedding of the noodles genomic-storage core: the BGZF block reader
(`noodles-bgzf/src/reader.rs`), the BAI reference-sequence index builder
(`noodles-bam/src/bai/index/reference_sequence/builder.rs`) and the CRAM slice
builder (`noodles-cram/src/container/slice/builder.rs`), together with proofs
about them.

Machine integers are modelled as `Nat`/`Int` with explicit wrapping where the
source's arithmetic can overflow (`u16`/`i32`/`usize` casts).  Code that can
panic is modelled with `Option` (`none` = panic); fallible I/O returns
`Except`.
-/

set_option autoImplicit false

/-! ## Virtual positions and chunks -/

/-- A BGZF virtual position: a packed `u64` whose upper 48 bits are the
compressed offset and whose low 16 bits are the in-block uncompressed offset
(spec §3, §6).  Ordering is the numeric order of the packed value. -/
abbrev VirtualPosition := Nat

/-- Modelled from the spec: `VirtualPosition::max()` is the all-ones `u64`
sentinel (the `virtual_position.rs` source is not under `src/`). -/
def VirtualPosition.maxVal : VirtualPosition := 2 ^ 64 - 1

/-- Modelled from the spec: the compressed-offset component (upper 48 bits). -/
def VirtualPosition.compressed (p : VirtualPosition) : Nat := p / 2 ^ 16

/-- Modelled from the spec: the uncompressed-offset component (low 16 bits). -/
def VirtualPosition.uncompressed (p : VirtualPosition) : Nat := p % 2 ^ 16

/-- Modelled from the spec: pack `(compressed, uncompressed)` into one value. -/
def VirtualPosition.fromOffsets (c u : Nat) : VirtualPosition := c * 2 ^ 16 + u

/-- A BAI chunk `(start, end)` of virtual positions.  The Rust field `end` is
spelled `end_` because `end` is a Lean keyword. -/
structure Chunk where
  start : VirtualPosition
  end_ : VirtualPosition
deriving DecidableEq

/-! ## Machine-integer casts (Rust `as` semantics, release mode: wrapping) -/

/-- Two's-complement wrap into `i32` range. -/
def wrapI32 (x : Int) : Int := (x + 2 ^ 31) % 2 ^ 32 - 2 ^ 31

/-- Rust `u32 as i32` cast. -/
def i32OfU32 (n : Nat) : Int := wrapI32 n

/-- Rust `i32 as usize` cast (sign-extend then reinterpret as `u64`). -/
def usizeOfI32 (x : Int) : Nat := (x % 2 ^ 64).toNat

/-! ## BAI reference-sequence index builder
(`noodles-bam/src/bai/index/reference_sequence/builder.rs`) -/

/-- `WINDOW_SIZE` from the builder source. -/
def WINDOW_SIZE : Int := 16384

/-- `MAX_INTERVAL_COUNT` from the builder source. -/
def MAX_INTERVAL_COUNT : Nat := 131072

/-- The slice of a BAM record the BAI builder reads, via the external record
accessors `position()`, `cigar().reference_len()`, `bin()` and
`flags().is_unmapped()` (spec §1 treats the record model as external). -/
structure BamRecord where
  position : Int
  reference_len : Nat
  bin : Nat
  unmapped : Bool
deriving DecidableEq

/-- A finished BAI bin `(id, chunks)`. -/
structure Bin where
  id : Nat
  chunks : List Chunk
deriving DecidableEq

/-- BAI per-reference metadata pseudo-bin. -/
structure Metadata where
  start_position : VirtualPosition
  end_position : VirtualPosition
  mapped_record_count : Nat
  unmapped_record_count : Nat
deriving DecidableEq

/-- A finished BAI reference-sequence index fragment. -/
structure ReferenceSequence where
  bins : List Bin
  intervals : List VirtualPosition
  metadata : Option Metadata
deriving DecidableEq

/-- Modelled from the spec: `bin::Builder::add_chunk` is not under `src/`.
Spec §4.4 says chunks are appended with no merging; this definition follows
those words verbatim, for comparison against `addChunk` below. -/
def addChunkNoMerge (chunks : List Chunk) (c : Chunk) : List Chunk :=
  chunks ++ [c]

/-- Modelled from the spec: `bin::Builder::add_chunk` is not under `src/`.
This definition is pinned instead by the repository's own `test_build`
(`builder.rs` lines 158-180), which requires the two chunks `(55,89)` and
`(89,144)` added to bin 4681 to come out as the single chunk `(55,144)`:
a new chunk whose start is at most the last chunk's end is merged into the
last chunk (the last chunk's end is replaced); otherwise it is appended. -/
def addChunk : List Chunk → Chunk → List Chunk
  | [], c => [c]
  | [last], c =>
      if c.start ≤ last.end_ then [⟨last.start, c.end_⟩] else [last, c]
  | x :: xs, c => x :: addChunk xs c

/-- The builder's `HashMap<u32, bin::Builder>`, modelled as an
insertion-ordered association list from bin id to accumulated chunks. -/
abbrev BinBuilders := List (Nat × List Chunk)

/-- `Builder::update_bins`: `entry(bin_id).or_insert_with(...)` then
`add_chunk(chunk)` on an insertion-ordered association list. -/
def update_bins (m : BinBuilders) (binId : Nat) (c : Chunk) : BinBuilders :=
  match m with
  | [] => [(binId, addChunk [] c)]
  | (k, cs) :: rest =>
      if k = binId then (k, addChunk cs c) :: rest
      else (k, cs) :: update_bins rest binId c

/-- Association-list lookup on the bin builders. -/
def findChunks (m : BinBuilders) (binId : Nat) : Option (List Chunk) :=
  match m with
  | [] => none
  | (k, cs) :: rest => if k = binId then some cs else findChunks rest binId

/-- `for i in lo..(lo+n) { l[i] = v }` one `List.set` at a time. -/
def setRange (l : List VirtualPosition) (lo n : Nat) (v : VirtualPosition) :
    List VirtualPosition :=
  match n with
  | 0 => l
  | k + 1 => setRange (l.set lo v) (lo + 1) k v

/-- Rust `for i in lo..=hi { l[i] = v }` with the panicking index operator:
`none` models the out-of-bounds panic (the loop iterates indices upward, so it
panics exactly when the range is nonempty and its top is out of bounds). -/
def writeRange (l : List VirtualPosition) (lo hi : Nat) (v : VirtualPosition) :
    Option (List VirtualPosition) :=
  if lo ≤ hi then
    if hi < l.length then some (setRange l lo (hi + 1 - lo) v) else none
  else some l

/-- `Builder::update_linear_index` (builder.rs lines 67-78): `i32` window
arithmetic with wrapping, `as usize` casts, then the unchecked slot writes. -/
def update_linear_index (intervals : List VirtualPosition) (r : BamRecord)
    (chunk : Chunk) : Option (List VirtualPosition) :=
  let start : Int := r.position
  let reference_len : Int := i32OfU32 r.reference_len
  let endPos : Int := wrapI32 (wrapI32 (start + reference_len) - 1)
  let linear_index_start_offset : Nat :=
    usizeOfI32 (Int.tdiv (wrapI32 (start - 1)) WINDOW_SIZE)
  let linear_index_end_offset : Nat :=
    usizeOfI32 (Int.tdiv (wrapI32 (endPos - 1)) WINDOW_SIZE)
  writeRange intervals linear_index_start_offset linear_index_end_offset
    chunk.start

/-- The BAI reference-sequence `Builder` state (builder.rs lines 17-25). -/
structure Builder where
  bin_builders : BinBuilders
  intervals : List VirtualPosition
  start_position : VirtualPosition
  end_position : VirtualPosition
  mapped_record_count : Nat
  unmapped_record_count : Nat
deriving DecidableEq

/-- `Builder::default()` (builder.rs lines 92-103). -/
def Builder.default : Builder where
  bin_builders := []
  intervals := List.replicate MAX_INTERVAL_COUNT 0
  start_position := VirtualPosition.maxVal
  end_position := 0
  mapped_record_count := 0
  unmapped_record_count := 0

/-- `Builder::add_record`: `update_bins`, `update_linear_index`,
`update_metadata` in that order; `none` models the linear-index panic. -/
def Builder.add_record (b : Builder) (r : BamRecord) (c : Chunk) :
    Option Builder :=
  match update_linear_index b.intervals r c with
  | none => none
  | some iv =>
      some { bin_builders := update_bins b.bin_builders r.bin c
             intervals := iv
             start_position := min b.start_position c.start
             end_position := max b.end_position c.end_
             mapped_record_count :=
               b.mapped_record_count + (if r.unmapped then 0 else 1)
             unmapped_record_count :=
               b.unmapped_record_count + (if r.unmapped then 1 else 0) }

/-- Modelled from the spec: `ReferenceSequence::default()` is not under
`src/`; spec §3/§8.5 give the empty value: no bins, a default-filled interval
array of `MAX_INTERVAL_COUNT` slots, and no metadata. -/
def ReferenceSequence.default : ReferenceSequence where
  bins := []
  intervals := List.replicate MAX_INTERVAL_COUNT 0
  metadata := none

/-- `Builder::build` (builder.rs lines 34-53). -/
def Builder.build (b : Builder) : ReferenceSequence :=
  if b.bin_builders = [] then ReferenceSequence.default
  else
    { bins := b.bin_builders.map fun p => ⟨p.1, p.2⟩
      intervals := b.intervals
      metadata := some ⟨b.start_position, b.end_position,
        b.mapped_record_count, b.unmapped_record_count⟩ }

/-- Runs a sequence of `add_record` calls, propagating the panic model. -/
def addRecords (b : Builder) : List (BamRecord × Chunk) → Option Builder
  | [] => some b
  | (r, c) :: rest =>
      match b.add_record r c with
      | none => none
      | some b' => addRecords b' rest

/-- The chunks added under one bin id, in call order. -/
def chunksFor (adds : List (BamRecord × Chunk)) (binId : Nat) : List Chunk :=
  match adds with
  | [] => []
  | (r, c) :: rest =>
      if r.bin = binId then c :: chunksFor rest binId else chunksFor rest binId

/-! ## BGZF block reader (`noodles-bgzf/src/reader.rs`) -/

/-- Modelled from the spec: `BGZF_HEADER_SIZE` lives outside `src/`; the
source reads `header[16..18]` for BSIZE, and the BGZF framing has an 18-byte
fixed header (spec §4.2/§6: fixed, format-defined). -/
def BGZF_HEADER_SIZE : Nat := 18

/-- Modelled from the spec: `gz::TRAILER_SIZE` lives outside `src/`; the gzip
trailer (CRC32 + ISIZE) is 8 bytes (spec §4.2/§6: fixed, format-defined). -/
def TRAILER_SIZE : Nat := 8

/-- The underlying byte source `R: Read (+ Seek)`: a byte list plus the
current read offset. -/
structure ByteSource where
  data : List Nat
  pos : Nat
deriving DecidableEq

/-- `std::io::Read::read_exact`: take exactly `n` bytes or fail having
consumed what was available. -/
def readExact (src : ByteSource) (n : Nat) :
    Except Unit (List Nat × ByteSource) :=
  let rem := src.data.drop src.pos
  if n ≤ rem.length then .ok (rem.take n, ⟨src.data, src.pos + n⟩)
  else .error ()

/-- Modelled from the spec: `Block` is not under `src/`.  One decompressed
unit: the compressed offset at which the block starts, the inflated byte
buffer, and the read cursor (spec §2, §3). -/
structure Block where
  position : Nat
  data : List Nat
  cursor : Nat
deriving DecidableEq

/-- `Block::default()`. -/
def Block.default : Block := ⟨0, [], 0⟩

/-- Modelled from the spec: `Block::virtual_position()` packs the block's
compressed offset with its cursor (spec §3, §4.3). -/
def Block.virtual_position (b : Block) : VirtualPosition :=
  VirtualPosition.fromOffsets b.position b.cursor

/-- The error kinds the reader surfaces: `read_exact` truncation, malformed
deflate data, and the `Interrupted` retry signal. -/
inductive RdError where
  | unexpectedEof
  | badInflate
  | interrupted
deriving DecidableEq

/-- `read_block_size` (reader.rs lines 73-87): any failed header
`read_exact` — an empty source and a truncated header alike — yields `Ok(0)`;
otherwise BSIZE is read little-endian from bytes 16-17 and 1 is added in
`u16` arithmetic (wrapping modulo `2^16`). -/
def read_block_size (src : ByteSource) : Nat × ByteSource :=
  match readExact src BGZF_HEADER_SIZE with
  | .error _ => (0, ⟨src.data, src.data.length⟩)
  | .ok (header, src') =>
      ((header.getD 16 0 + 256 * header.getD 17 0 + 1) % 2 ^ 16, src')

/-- `read_block` (reader.rs lines 105-130), parametric in the deflate
decompressor (`flate2` is external; spec §1).  Returns the io::Result
together with the mutated source; on success the block's buffer is replaced
and its cursor reset, its `position` untouched. -/
def read_block (inflate : List Nat → Except Unit (List Nat))
    (src : ByteSource) (block : Block) :
    Except RdError (Nat × Block) × ByteSource :=
  let (block_size, src1) := read_block_size src
  if block_size = 0 then (.ok (0, block), src1)
  else
    let cdata_len : Nat :=
      (((block_size : Int) - (BGZF_HEADER_SIZE : Int) - (TRAILER_SIZE : Int)) %
        2 ^ 64).toNat
    match readExact src1 cdata_len with
    | .error _ => (.error .unexpectedEof, ⟨src1.data, src1.data.length⟩)
    | .ok (cdata, src2) =>
        match readExact src2 TRAILER_SIZE with
        | .error _ => (.error .unexpectedEof, ⟨src2.data, src2.data.length⟩)
        | .ok (_, src3) =>
            match inflate cdata with
            | .error _ => (.error .badInflate, src3)
            | .ok udata =>
                (.ok (block_size, { block with data := udata, cursor := 0 }),
                  src3)

/-- The BGZF `Reader` (reader.rs lines 8-13); the `cdata` scratch buffer is
fully overwritten on every block read and is not observable, so it is not
carried. -/
structure Reader where
  inner : ByteSource
  position : Nat
  block : Block
deriving DecidableEq

/-- `Reader::new` (reader.rs lines 16-23). -/
def Reader.new (data : List Nat) : Reader := ⟨⟨data, 0⟩, 0, Block.default⟩

/-- `Reader::virtual_position` (reader.rs lines 29-31). -/
def Reader.virtual_position (r : Reader) : VirtualPosition :=
  r.block.virtual_position

/-- `<Reader as Read>::read` (reader.rs lines 56-70).  The `Ok` payload
carries the bytes served (their length is the Rust return value); on block
exhaustion the next block is decoded: 0 means end of stream, otherwise the
block's start offset is recorded, the compressed-offset counter advanced,
and `ErrorKind::Interrupted` returned as the retry signal. -/
def Reader.read (inflate : List Nat → Except Unit (List Nat)) (r : Reader)
    (bufLen : Nat) : Except RdError (List Nat) × Reader :=
  let served := (r.block.data.drop r.block.cursor).take bufLen
  if served.length = 0 then
    match read_block inflate r.inner r.block with
    | (.ok (0, block'), src') =>
        (.ok [], { r with inner := src', block := block' })
    | (.ok (bs, block'), src') =>
        (.error .interrupted,
          { inner := src', position := r.position + bs,
            block := { block' with position := r.position } })
    | (.error e, src') => (.error e, { r with inner := src' })
  else
    (.ok served,
      { r with block := { r.block with cursor := r.block.cursor + served.length } })

/-- `Reader::seek` (reader.rs lines 35-49): seek the source to the
compressed offset, set `position`, decode one block there, then move the
block's cursor to the uncompressed offset.  Note the block's `position`
field is not updated anywhere on this path. -/
def Reader.seek (inflate : List Nat → Except Unit (List Nat)) (r : Reader)
    (pos : VirtualPosition) : Except RdError VirtualPosition × Reader :=
  let compressed_offset := VirtualPosition.compressed pos
  let uncompressed_offset := VirtualPosition.uncompressed pos
  let src0 : ByteSource := ⟨r.inner.data, compressed_offset⟩
  match read_block inflate src0 r.block with
  | (.error e, src') =>
      (.error e, { r with inner := src', position := compressed_offset })
  | (.ok (_, block'), src') =>
      (.ok pos,
        { inner := src', position := compressed_offset,
          block := { block' with cursor := uncompressed_offset } })

/-- The identity decompressor, used to instantiate the `inflate` parameter
on concrete inputs. -/
def idInflate : List Nat → Except Unit (List Nat) := fun l => .ok l

/-! ## CRAM slice builder (`noodles-cram/src/container/slice/builder.rs`) -/

/-- `container::ReferenceSequenceId` (external to `src/`, but its three
variants are matched exhaustively by the slice builder). -/
inductive ReferenceSequenceId where
  | none
  | some (id : Int)
  | many
deriving DecidableEq

/-- The slice of a CRAM record the builder reads: the record's reference
sequence id as the `Option<i32>` that
`bam::record::ReferenceSequenceId::from(record.reference_id)` dereferences
to (that conversion is external to `src/`). -/
structure CramRecord where
  reference_id : Option Int
deriving DecidableEq

/-- `slice::builder::AddRecordError` (builder.rs lines 23-26). -/
inductive AddRecordError where
  | referenceSequenceIdMismatch
deriving DecidableEq

/-- The CRAM slice `Builder` state (builder.rs lines 17-21). -/
structure SliceBuilder where
  reference_sequence_id : ReferenceSequenceId
  records : List CramRecord
deriving DecidableEq

/-- `slice::Builder::new` (builder.rs lines 29-34). -/
def SliceBuilder.new (rid : ReferenceSequenceId) : SliceBuilder := ⟨rid, []⟩

/-- `slice::Builder::add_record` (builder.rs lines 36-63): the post-state
builder plus the `Result` (`Ok` carries the pushed record, as `Ok(&Record)`
does); the `Many` arm hits `todo!()`, modelled as `Option.none`. -/
def SliceBuilder.add_record (b : SliceBuilder) (r : CramRecord) :
    Option (SliceBuilder × Except AddRecordError CramRecord) :=
  match b.reference_sequence_id with
  | .none =>
      match r.reference_id with
      | Option.some _ => some (b, .error .referenceSequenceIdMismatch)
      | Option.none => some ({ b with records := b.records ++ [r] }, .ok r)
  | .some slice_reference_sequence_id =>
      match r.reference_id with
      | Option.some id =>
          if slice_reference_sequence_id = id then
            some ({ b with records := b.records ++ [r] }, .ok r)
          else some (b, .error .referenceSequenceIdMismatch)
      | Option.none => some (b, .error .referenceSequenceIdMismatch)
  | .many => none

/-- Whether a record's reference sequence id matches the slice's. -/
def ridMatches (sid : ReferenceSequenceId) (rid : Option Int) : Bool :=
  match sid, rid with
  | .none, Option.none => true
  | .some s, Option.some i => s = i
  | _, _ => false

/-! ## Concrete fixtures -/

/-- The two `(record, chunk)` adds of the repository's `test_build`:
record A at position 2, CIGAR `4M`, mapped, chunk `(55,89)`; record B at
position 6, CIGAR `2M`, unmapped, chunk `(89,144)`; both in bin 4681. -/
def testAdds : List (BamRecord × Chunk) :=
  [(⟨2, 4, 4681, false⟩, ⟨55, 89⟩), (⟨6, 2, 4681, true⟩, ⟨89, 144⟩)]

/-- A minimal 26-byte BGZF block: 18-byte header whose BSIZE field is 25
(declared total size 26), empty deflate payload, 8-byte trailer. -/
def block26 : List Nat :=
  [31, 139, 8, 4, 0, 0, 0, 0, 0, 255, 6, 0, 66, 67, 2, 0, 25, 0] ++
    List.replicate 8 0

/-- A 27-byte BGZF block: BSIZE field 26 (declared total size 27), one
payload byte `7`, 8-byte trailer. -/
def block27 : List Nat :=
  [31, 139, 8, 4, 0, 0, 0, 0, 0, 255, 6, 0, 66, 67, 2, 0, 26, 0] ++
    (7 :: List.replicate 8 0)

/-- Two minimal blocks back to back; the second block starts at offset 26. -/
def twoBlocks : List Nat := block26 ++ block26

/-! ## Helper lemmas -/

theorem getD_take_of_lt (l : List Nat) (n i d : Nat) (h : i < n) :
    (l.take n).getD i d = l.getD i d := by
  simp [List.getD_eq_getElem?_getD, List.getElem?_take_of_lt h]

theorem readExact_ok (src : ByteSource) (n : Nat)
    (h : n ≤ (src.data.drop src.pos).length) :
    readExact src n =
      .ok ((src.data.drop src.pos).take n, ⟨src.data, src.pos + n⟩) := by
  have h' : n ≤ src.data.length - src.pos := by simpa using h
  simp [readExact, h']

theorem readExact_err (src : ByteSource) (n : Nat)
    (h : (src.data.drop src.pos).length < n) :
    readExact src n = .error () := by
  have h' : src.data.length - src.pos < n := by simpa using h
  simp [readExact]
  omega

/-! ## C10: CRAM slice builder record admission -/

/-- C10: for a slice builder whose reference sequence id is `None` or
`Some(id)`, `add_record` appends the record and returns `Ok` exactly when the
record's reference sequence id matches (both `None`, or both `Some` with
equal ids); on any mismatch it returns
`Err(ReferenceSequenceIdMismatch)` and leaves the record list unchanged. -/
theorem slice_add_record_iff_rid_matches (b : SliceBuilder) (r : CramRecord)
    (h : b.reference_sequence_id ≠ .many) :
    (ridMatches b.reference_sequence_id r.reference_id = true →
      b.add_record r = some ({ b with records := b.records ++ [r] }, .ok r)) ∧
    (ridMatches b.reference_sequence_id r.reference_id = false →
      b.add_record r = some (b, .error .referenceSequenceIdMismatch)) := by
  cases hb : b.reference_sequence_id with
  | none =>
      cases hr : r.reference_id <;>
        simp [SliceBuilder.add_record, ridMatches, hb, hr]
  | some sid =>
      cases hr : r.reference_id with
      | none => simp [SliceBuilder.add_record, ridMatches, hb, hr]
      | some i =>
          by_cases hi : sid = i <;>
            simp [SliceBuilder.add_record, ridMatches, hb, hr, hi]
  | many => exact absurd hb h

/-- Witness for C10 at concrete inputs: a matching `Some 3` record is
appended with `Ok`; a mismatching `Some 4` record yields the mismatch error
and an unchanged builder. -/
theorem slice_add_record_iff_rid_matches_witness :
    SliceBuilder.add_record ⟨.some 3, []⟩ ⟨Option.some 3⟩ =
      some (⟨.some 3, [⟨Option.some 3⟩]⟩, .ok ⟨Option.some 3⟩) ∧
    SliceBuilder.add_record ⟨.some 3, []⟩ ⟨Option.some 4⟩ =
      some (⟨.some 3, []⟩, .error .referenceSequenceIdMismatch) :=
  ⟨(slice_add_record_iff_rid_matches ⟨.some 3, []⟩ ⟨Option.some 3⟩
      (by decide)).1 (by decide),
    (slice_add_record_iff_rid_matches ⟨.some 3, []⟩ ⟨Option.some 4⟩
      (by decide)).2 (by decide)⟩

theorem read_block_size_short (src : ByteSource)
    (h : (src.data.drop src.pos).length < BGZF_HEADER_SIZE) :
    read_block_size src = (0, ⟨src.data, src.data.length⟩) := by
  unfold read_block_size
  rw [readExact_err _ _ h]

theorem read_block_size_of_full (src : ByteSource)
    (h : BGZF_HEADER_SIZE ≤ (src.data.drop src.pos).length) :
    read_block_size src =
      (((src.data.drop src.pos).getD 16 0 +
          256 * (src.data.drop src.pos).getD 17 0 + 1) % 2 ^ 16,
        ⟨src.data, src.pos + BGZF_HEADER_SIZE⟩) := by
  unfold read_block_size
  rw [readExact_ok _ _ h]
  dsimp only
  rw [getD_take_of_lt _ _ _ _ (by decide), getD_take_of_lt _ _ _ _ (by decide)]

/-! ## C9: u16 wraparound in the block-size computation -/

/-- C9: with a full header available, the computed block size is
`(BSIZE + 1) mod 2^16`; a BSIZE field of `0xFFFF` therefore wraps to 0 and
the block read reports end of stream instead of reading a 65536-byte block,
while any smaller BSIZE yields exactly `BSIZE + 1`. -/
theorem read_block_size_u16_wrap (src : ByteSource)
    (h : BGZF_HEADER_SIZE ≤ (src.data.drop src.pos).length) :
    (read_block_size src).1 =
      ((src.data.drop src.pos).getD 16 0 +
        256 * (src.data.drop src.pos).getD 17 0 + 1) % 2 ^ 16 ∧
    ((src.data.drop src.pos).getD 16 0 +
        256 * (src.data.drop src.pos).getD 17 0 = 65535 →
      (read_block_size src).1 = 0 ∧
      ∀ (inflate : List Nat → Except Unit (List Nat)) (block : Block),
        read_block inflate src block =
          (.ok (0, block), ⟨src.data, src.pos + BGZF_HEADER_SIZE⟩)) ∧
    ((src.data.drop src.pos).getD 16 0 +
        256 * (src.data.drop src.pos).getD 17 0 < 65535 →
      (read_block_size src).1 =
        (src.data.drop src.pos).getD 16 0 +
          256 * (src.data.drop src.pos).getD 17 0 + 1) := by
  have hq := read_block_size_of_full src h
  refine ⟨by rw [hq], fun hf => ⟨?_, ?_⟩, fun hf => ?_⟩
  · rw [hq]
    dsimp only
    omega
  · intro inflate block
    have hz : ((src.data.drop src.pos).getD 16 0 +
        256 * (src.data.drop src.pos).getD 17 0 + 1) % 2 ^ 16 = 0 := by omega
    unfold read_block
    rw [hq]
    dsimp only
    rw [hz]
    simp
  · rw [hq]
    dsimp only
    omega

/-- Witness for C9: an 18-byte header with BSIZE `0xFFFF` produces size 0
and an end-of-stream block read; BSIZE 25 produces size 26. -/
theorem read_block_size_u16_wrap_witness :
    (read_block_size
        ⟨[31, 139, 8, 4, 0, 0, 0, 0, 0, 255, 6, 0, 66, 67, 2, 0, 255, 255],
          0⟩).1 = 0 ∧
    read_block idInflate
        ⟨[31, 139, 8, 4, 0, 0, 0, 0, 0, 255, 6, 0, 66, 67, 2, 0, 255, 255], 0⟩
        Block.default =
      (.ok (0, Block.default),
        ⟨[31, 139, 8, 4, 0, 0, 0, 0, 0, 255, 6, 0, 66, 67, 2, 0, 255, 255],
          18⟩) ∧
    (read_block_size
        ⟨[31, 139, 8, 4, 0, 0, 0, 0, 0, 255, 6, 0, 66, 67, 2, 0, 25, 0],
          0⟩).1 = 26 := by
  have h1 := read_block_size_u16_wrap
    ⟨[31, 139, 8, 4, 0, 0, 0, 0, 0, 255, 6, 0, 66, 67, 2, 0, 255, 255], 0⟩
    (by decide)
  have h2 := read_block_size_u16_wrap
    ⟨[31, 139, 8, 4, 0, 0, 0, 0, 0, 255, 6, 0, 66, 67, 2, 0, 25, 0], 0⟩
    (by decide)
  exact ⟨(h1.2.1 (by decide)).1, (h1.2.1 (by decide)).2 idInflate Block.default,
    (h2.2.2 (by decide)).trans (by decide)⟩

/-! ## C2: error taxonomy of one framed block read -/

/-- C2 (amended): a source yielding fewer than the 18 header bytes —
including none at all — makes the block read return size 0 (indistinguishable
from a clean end of stream), because `read_block_size` maps any failed header
`read_exact` to `Ok(0)`; with a full header of declared size `bs ≥ 26`, a
truncated compressed payload, a truncated trailer, or malformed deflate data
each surface as an I/O error. -/
theorem read_block_error_taxonomy (inflate : List Nat → Except Unit (List Nat))
    (src : ByteSource) (block : Block) (bs : Nat)
    (hbs : bs = ((src.data.drop src.pos).getD 16 0 +
      256 * (src.data.drop src.pos).getD 17 0 + 1) % 2 ^ 16) :
    ((src.data.drop src.pos).length < BGZF_HEADER_SIZE →
      read_block inflate src block =
        (.ok (0, block), ⟨src.data, src.data.length⟩)) ∧
    (BGZF_HEADER_SIZE ≤ (src.data.drop src.pos).length → 26 ≤ bs →
      (((src.data.drop src.pos).length < 18 + (bs - 26) →
        (read_block inflate src block).1 = .error .unexpectedEof) ∧
      (18 + (bs - 26) ≤ (src.data.drop src.pos).length →
        (src.data.drop src.pos).length < bs →
        (read_block inflate src block).1 = .error .unexpectedEof) ∧
      (bs ≤ (src.data.drop src.pos).length →
        inflate (((src.data.drop src.pos).drop 18).take (bs - 26)) =
          .error () →
        (read_block inflate src block).1 = .error .badInflate))) := by
  constructor
  · intro h
    unfold read_block
    rw [read_block_size_short src h]
    simp
  · intro h18 h26
    have hq : read_block_size src =
        (bs, ⟨src.data, src.pos + BGZF_HEADER_SIZE⟩) := by
      rw [read_block_size_of_full src h18, hbs]
    have hlt : bs < 2 ^ 16 := by omega
    have hbsne : ¬ bs = 0 := by omega
    have hcl : (((bs : Int) - (BGZF_HEADER_SIZE : Nat) -
        (TRAILER_SIZE : Nat)) % 2 ^ 64).toNat = bs - 26 := by
      simp only [BGZF_HEADER_SIZE, TRAILER_SIZE]
      omega
    have hL : (src.data.drop src.pos).length = src.data.length - src.pos := by
      simp
    have hLp : 18 ≤ src.data.length - src.pos := by
      simpa [BGZF_HEADER_SIZE] using h18
    refine ⟨?_, ?_, ?_⟩
    · intro hshort
      unfold read_block
      rw [hq]
      dsimp only
      rw [if_neg hbsne, hcl]
      rw [readExact_err _ _ (by simp [BGZF_HEADER_SIZE]; omega)]
    · intro hp ht
      unfold read_block
      rw [hq]
      dsimp only
      rw [if_neg hbsne, hcl]
      rw [readExact_ok _ _ (by simp [BGZF_HEADER_SIZE]; omega)]
      dsimp only
      rw [readExact_err _ _ (by simp [BGZF_HEADER_SIZE, TRAILER_SIZE]; omega)]
    · intro hfull hinf
      unfold read_block
      rw [hq]
      dsimp only
      rw [if_neg hbsne, hcl]
      rw [readExact_ok _ _ (by simp [BGZF_HEADER_SIZE]; omega)]
      dsimp only
      rw [readExact_ok _ _ (by simp [BGZF_HEADER_SIZE, TRAILER_SIZE]; omega)]
      dsimp only
      have hpayload : (src.data.drop (src.pos + BGZF_HEADER_SIZE)).take
          (bs - 26) = ((src.data.drop src.pos).drop 18).take (bs - 26) := by
        rw [List.drop_drop]
        simp [BGZF_HEADER_SIZE]
      rw [hpayload, hinf]

/-- C2 counterexample: a nonempty source holding a truncated 5-byte header
yields `Ok(0)` — the clean end-of-stream signal — not an I/O error, contrary
to the claim that a truncated header surfaces as an error. -/
theorem read_block_truncated_header_not_error :
    read_block idInflate ⟨[31, 139, 8, 4, 0], 0⟩ Block.default =
      (.ok (0, Block.default), ⟨[31, 139, 8, 4, 0], 5⟩) := by
  rfl

/-- Witness for C2's amended taxonomy on concrete sources: truncated header
(5 bytes) gives size 0; header-only prefix of a 27-byte block gives a
truncated-payload error; a 20-byte prefix gives a truncated-trailer error;
the full block with a failing decompressor gives a deflate error. -/
theorem read_block_error_taxonomy_witness :
    read_block idInflate ⟨List.take 5 block27, 0⟩ Block.default =
      (.ok (0, Block.default), ⟨List.take 5 block27, 5⟩) ∧
    (read_block idInflate ⟨List.take 18 block27, 0⟩ Block.default).1 =
      .error .unexpectedEof ∧
    (read_block idInflate ⟨List.take 20 block27, 0⟩ Block.default).1 =
      .error .unexpectedEof ∧
    (read_block (fun _ => .error ()) ⟨block27, 0⟩ Block.default).1 =
      .error .badInflate :=
  ⟨(read_block_error_taxonomy idInflate ⟨List.take 5 block27, 0⟩ Block.default
      1 (by decide)).1 (by decide),
    ((read_block_error_taxonomy idInflate ⟨List.take 18 block27, 0⟩
        Block.default 27 (by decide)).2 (by decide) (by decide)).1 (by decide),
    ((read_block_error_taxonomy idInflate ⟨List.take 20 block27, 0⟩
        Block.default 27 (by decide)).2 (by decide) (by decide)).2.1
      (by decide) (by decide),
    ((read_block_error_taxonomy (fun _ => .error ()) ⟨block27, 0⟩
        Block.default 27 (by decide)).2 (by decide) (by decide)).2.2
      (by decide) rfl⟩

/-! ## C3: reading across a block boundary -/

/-- C3: with the current block exhausted, a read that decodes a next block of
size `n > 0` delivers zero bytes and returns the `Interrupted` retry signal,
after recording the new block's starting compressed offset into the block and
advancing the reader's compressed-offset counter by `n`; if decoding yields 0
the read returns `Ok(0)`; the immediately following read serves bytes from
the freshly loaded block. -/
theorem reader_block_boundary (inflate : List Nat → Except Unit (List Nat))
    (r : Reader) (bufLen : Nat)
    (hex : r.block.data.length ≤ r.block.cursor) :
    (∀ bs block' src',
      read_block inflate r.inner r.block = (.ok (bs, block'), src') →
      0 < bs →
      Reader.read inflate r bufLen =
        (.error .interrupted,
          { inner := src', position := r.position + bs,
            block := { block' with position := r.position } }) ∧
      (Reader.read inflate r bufLen).2.virtual_position =
        VirtualPosition.fromOffsets r.position block'.cursor ∧
      ((block'.data.drop block'.cursor).take bufLen ≠ [] →
        (Reader.read inflate (Reader.read inflate r bufLen).2 bufLen).1 =
          .ok ((block'.data.drop block'.cursor).take bufLen))) ∧
    (∀ block' src',
      read_block inflate r.inner r.block = (.ok (0, block'), src') →
      Reader.read inflate r bufLen =
        (.ok [], { r with inner := src', block := block' })) := by
  have hserved : (r.block.data.drop r.block.cursor).take bufLen = [] := by
    rw [List.drop_eq_nil_of_le hex, List.take_nil]
  constructor
  · intro bs block' src' hrb hpos
    obtain ⟨k, rfl⟩ : ∃ k, bs = k + 1 := ⟨bs - 1, by omega⟩
    have hread : Reader.read inflate r bufLen =
        (.error .interrupted,
          { inner := src', position := r.position + (k + 1),
            block := { block' with position := r.position } }) := by
      simp only [Reader.read, hserved]
      rw [hrb]
      simp
    refine ⟨hread, by rw [hread]; rfl, ?_⟩
    intro hne
    rw [hread]
    simp only [Reader.read]
    rw [if_neg (fun hc => hne (List.length_eq_zero.mp hc))]
  · intro block' src' hrb
    simp only [Reader.read, hserved]
    rw [hrb]
    simp

/-- Witness for C3: over a 27-byte block with payload byte `7`, the read on
the exhausted fresh reader returns the retry signal with the state advanced,
and the following read serves the new block's bytes. -/
theorem reader_block_boundary_witness :
    Reader.read idInflate (Reader.new block27) 10 =
      (.error .interrupted, ⟨⟨block27, 27⟩, 27, ⟨0, [7], 0⟩⟩) ∧
    (Reader.read idInflate ⟨⟨block27, 27⟩, 27, ⟨0, [7], 0⟩⟩ 10).1 = .ok [7] := by
  have h := (reader_block_boundary idInflate (Reader.new block27) 10
    (by decide)).1 27 ⟨0, [7], 0⟩ ⟨block27, 27⟩ (by rfl) (by decide)
  exact ⟨h.1, h.2.2 (by decide)⟩

/-! ## C4: seek leaves the block's compressed offset stale -/

/-- C4 evaluated at the failing input: over two back-to-back 26-byte blocks,
seeking a fresh reader to virtual position `(26, 0)` (packed `26 * 2^16`)
does return that position and is idempotent, but `virtual_position()`
immediately afterwards is `0`, not the sought position: `Reader::seek` never
stores the new compressed offset into the block, so the block's `position`
stays stale. -/
theorem seek_stale_virtual_position :
    (Reader.seek idInflate (Reader.new twoBlocks) (26 * 2 ^ 16)).1 =
      .ok (26 * 2 ^ 16) ∧
    (Reader.seek idInflate (Reader.new twoBlocks) (26 * 2 ^ 16)).2.virtual_position
      = 0 ∧
    (0 : VirtualPosition) ≠ 26 * 2 ^ 16 ∧
    Reader.seek idInflate
        (Reader.seek idInflate (Reader.new twoBlocks) (26 * 2 ^ 16)).2
        (26 * 2 ^ 16) =
      Reader.seek idInflate (Reader.new twoBlocks) (26 * 2 ^ 16) := by
  refine ⟨rfl, rfl, by decide, ?_⟩
  rfl

/-! ## Linear-index helper lemmas -/

theorem setRange_length (v : VirtualPosition) (n : Nat) :
    ∀ (lo : Nat) (l : List VirtualPosition),
    (setRange l lo n v).length = l.length := by
  induction n with
  | zero => intro lo l; rfl
  | succ k ih =>
      intro lo l
      show (setRange (l.set lo v) (lo + 1) k v).length = l.length
      rw [ih, List.length_set]

theorem getElem?_setRange (v : VirtualPosition) (n : Nat) :
    ∀ (lo : Nat) (l : List VirtualPosition) (i : Nat),
    (setRange l lo n v)[i]? =
      if lo ≤ i ∧ i < lo + n then (if i < l.length then some v else none)
      else l[i]? := by
  induction n with
  | zero =>
      intro lo l i
      rw [setRange, if_neg (by omega)]
  | succ k ih =>
      intro lo l i
      show (setRange (l.set lo v) (lo + 1) k v)[i]? = _
      rw [ih (lo + 1) (l.set lo v) i, List.length_set, List.getElem?_set]
      by_cases h1 : lo = i
      · subst h1
        rw [if_neg (show ¬(lo + 1 ≤ lo ∧ lo < lo + 1 + k) from by omega),
          if_pos rfl, if_pos (show lo ≤ lo ∧ lo < lo + (k + 1) from by omega)]
      · by_cases h2 : lo + 1 ≤ i ∧ i < lo + 1 + k
        · rw [if_pos h2,
            if_pos (show lo ≤ i ∧ i < lo + (k + 1) from by omega)]
        · push_neg at h2
          rw [if_neg (show ¬(lo + 1 ≤ i ∧ i < lo + 1 + k) from by
              intro hc; have := h2 hc.1; omega),
            if_neg h1,
            if_neg (show ¬(lo ≤ i ∧ i < lo + (k + 1)) from by
              intro hc; have := h2 (by omega); omega)]

theorem writeRange_spec (l : List VirtualPosition) (lo hi : Nat)
    (v : VirtualPosition) (hhi : hi < l.length) :
    ∃ l', writeRange l lo hi v = some l' ∧ l'.length = l.length ∧
      ∀ i, i < l.length →
        l'[i]? = if lo ≤ i ∧ i ≤ hi then some v else l[i]? := by
  unfold writeRange
  by_cases hlohi : lo ≤ hi
  · rw [if_pos hlohi, if_pos hhi]
    refine ⟨_, rfl, setRange_length v _ _ _, fun i hil => ?_⟩
    rw [getElem?_setRange]
    by_cases hc : lo ≤ i ∧ i ≤ hi
    · rw [if_pos (show lo ≤ i ∧ i < lo + (hi + 1 - lo) from by omega),
        if_pos hil, if_pos hc]
    · rw [if_neg (show ¬(lo ≤ i ∧ i < lo + (hi + 1 - lo)) from by
          intro h; exact hc ⟨h.1, by omega⟩), if_neg hc]
  · rw [if_neg hlohi]
    exact ⟨l, rfl, rfl, fun i _ => by
      rw [if_neg (show ¬(lo ≤ i ∧ i ≤ hi) from by omega)]⟩

theorem writeRange_none (l : List VirtualPosition) (lo hi : Nat)
    (v : VirtualPosition) (hlo : lo ≤ hi) (hhi : l.length ≤ hi) :
    writeRange l lo hi v = none := by
  unfold writeRange
  rw [if_pos hlo, if_neg (by omega)]

theorem writeRange_empty (l : List VirtualPosition) (lo hi : Nat)
    (v : VirtualPosition) (h : hi < lo) : writeRange l lo hi v = some l := by
  unfold writeRange
  rw [if_neg (by omega)]

/-! ## Wrapping-arithmetic helper lemmas -/

theorem wrapI32_eq_self (x : Int) (h1 : -(2 ^ 31) ≤ x) (h2 : x < 2 ^ 31) :
    wrapI32 x = x := by
  unfold wrapI32
  omega

theorem tdiv_toNat (a : Int) (n : Nat) (h : 0 ≤ a) :
    Int.tdiv a (n : Int) = ((a.toNat / n : Nat) : Int) := by
  obtain ⟨m, rfl⟩ := Int.eq_ofNat_of_zero_le h
  rfl

theorem usizeOfI32_ofNat (m : Nat) (h : m < 2 ^ 64) :
    usizeOfI32 (m : Int) = m := by
  unfold usizeOfI32
  omega

/-- In the in-range regime `1 ≤ E ≤ 2^31` (true genomic end `E`), the
`i32`-wrapped end-minus-one computation comes out exactly `E - 1`, including
the two boundary cases where intermediate values wrap. -/
theorem safe_end_offset (E : Int) (h1 : 1 ≤ E) (h2 : E ≤ 2 ^ 31) :
    wrapI32 (wrapI32 (wrapI32 (E + 1) - 1) - 1) = E - 1 := by
  unfold wrapI32
  omega

theorem update_linear_index_eq (intervals : List VirtualPosition)
    (r : BamRecord) (c : Chunk) :
    update_linear_index intervals r c =
      writeRange intervals
        (usizeOfI32 (Int.tdiv (wrapI32 (r.position - 1)) WINDOW_SIZE))
        (usizeOfI32 (Int.tdiv (wrapI32
          (wrapI32 (wrapI32 (r.position + i32OfU32 r.reference_len) - 1) - 1))
          WINDOW_SIZE)) c.start := rfl

/-! ## C1: linear-index slots are overwritten unconditionally -/

/-- C1: for a record with 1-based start `position` and genomic end
`position + reference_len - 1` in range, `update_linear_index` sets every
slot in `[(start-1)/16384, (end-1)/16384]` to `chunk.start()` unconditionally
and leaves every other slot unchanged — so the last `add_record` writing a
window determines that slot, regardless of which chunk start is smaller. -/
theorem update_linear_index_window_slots (intervals : List VirtualPosition)
    (r : BamRecord) (c : Chunk)
    (h1 : 1 ≤ r.position) (h2 : 1 ≤ r.reference_len)
    (h3 : r.reference_len ≤ 2 ^ 31 - 1)
    (h4 : r.position + r.reference_len - 1 ≤ 2 ^ 31)
    (h5 : (r.position + r.reference_len - 2).toNat / 16384 <
      intervals.length) :
    ∃ l', update_linear_index intervals r c = some l' ∧
      l'.length = intervals.length ∧
      ∀ i, i < intervals.length →
        l'[i]? = if (r.position - 1).toNat / 16384 ≤ i ∧
            i ≤ (r.position + r.reference_len - 2).toNat / 16384
          then some c.start else intervals[i]? := by
  have hrl : i32OfU32 r.reference_len = (r.reference_len : Int) := by
    unfold i32OfU32
    exact wrapI32_eq_self _ (by omega) (by omega)
  have hlo_val : usizeOfI32 (Int.tdiv (wrapI32 (r.position - 1)) WINDOW_SIZE)
      = (r.position - 1).toNat / 16384 := by
    rw [wrapI32_eq_self _ (by omega) (by omega),
      show WINDOW_SIZE = ((16384 : Nat) : Int) from rfl,
      tdiv_toNat _ _ (by omega)]
    exact usizeOfI32_ofNat ((r.position - 1).toNat / 16384) (by omega)
  have hs : wrapI32 (wrapI32 (wrapI32 (r.position + (r.reference_len : Int))
      - 1) - 1) = r.position + (r.reference_len : Int) - 2 := by
    have hx := safe_end_offset (r.position + (r.reference_len : Int) - 1)
      (by omega) (by omega)
    rw [show r.position + (r.reference_len : Int) - 1 + 1 =
      r.position + (r.reference_len : Int) from by ring] at hx
    rw [hx]
    ring
  have hhi_val : usizeOfI32 (Int.tdiv (wrapI32
      (wrapI32 (wrapI32 (r.position + i32OfU32 r.reference_len) - 1) - 1))
      WINDOW_SIZE) = (r.position + r.reference_len - 2).toNat / 16384 := by
    rw [hrl, hs,
      show WINDOW_SIZE = ((16384 : Nat) : Int) from rfl,
      tdiv_toNat _ _ (by omega)]
    exact usizeOfI32_ofNat
      ((r.position + (r.reference_len : Int) - 2).toNat / 16384) (by omega)
  rw [update_linear_index_eq, hlo_val, hhi_val]
  exact writeRange_spec intervals _ _ c.start h5

/-- Witness for C1 on a 3-slot interval list and the record from
`test_build` (position 2, CIGAR `4M`, chunk `(55,89)`): slot 0 is written
with the chunk start and slot 1 is untouched. -/
theorem update_linear_index_window_slots_witness :
    (update_linear_index [0, 0, 0] ⟨2, 4, 4681, false⟩ ⟨55, 89⟩).map
      (fun l => (l.length, l[0]?, l[1]?)) = some (3, some 55, some 0) := by
  obtain ⟨l', hl, hlen, hval⟩ := update_linear_index_window_slots [0, 0, 0]
    ⟨2, 4, 4681, false⟩ ⟨55, 89⟩ (by norm_num) (by norm_num) (by norm_num)
    (by norm_num) (by decide)
  rw [hl]
  have h0 := hval 0 (by norm_num)
  have h1 := hval 1 (by norm_num)
  norm_num at h0 h1
  show some (l'.length, l'[0]?, l'[1]?) = _
  rw [show l'.length = 3 from by simpa using hlen, h0, h1]
  norm_num
  decide

theorem tdiv_neg_ofNat (m n : Nat) :
    Int.tdiv (-(m : Int)) (n : Int) = -((m / n : Nat) : Int) := by
  cases m with
  | zero => simp
  | succ k => rfl

theorem usizeOfI32_neg (q : Nat) (h1 : 1 ≤ q) (h2 : q ≤ 2 ^ 64) :
    usizeOfI32 (-(q : Int)) = 2 ^ 64 - q := by
  unfold usizeOfI32
  omega

/-- In the overflow regime `2^31 + 1 < X ≤ 2^32 - 1` (`X` the true
`start + reference_len`), the `i32` additions wrap and the end-minus-one
computation comes out `X - 2^32 - 2`, a negative value. -/
theorem mid_end_offset (X : Int) (h1 : 2 ^ 31 + 1 < X) (h2 : X ≤ 2 ^ 32 - 1) :
    wrapI32 (wrapI32 (wrapI32 X - 1) - 1) = X - 2 ^ 32 - 2 := by
  unfold wrapI32
  omega

theorem linear_lo_val (p : Int) (h1 : 1 ≤ p) (hp : p ≤ 2 ^ 31 - 1) :
    usizeOfI32 (Int.tdiv (wrapI32 (p - 1)) WINDOW_SIZE) =
      (p - 1).toNat / 16384 := by
  rw [wrapI32_eq_self _ (by omega) (by omega),
    show WINDOW_SIZE = ((16384 : Nat) : Int) from rfl,
    tdiv_toNat _ _ (by omega)]
  exact usizeOfI32_ofNat ((p - 1).toNat / 16384) (by omega)

/-- In the mid overflow regime the computed window top, reinterpreted
through `as usize`, is a huge index (at least `MAX_INTERVAL_COUNT`). -/
theorem linear_hi_mid (p : Int) (len : Nat) (h2 : 1 ≤ len)
    (h3 : len ≤ 2 ^ 31 - 1)
    (hmid1 : 2 ^ 31 < p + len - 1) (hmid2 : p + len - 1 ≤ 2 ^ 32 - 16383) :
    131072 ≤ usizeOfI32 (Int.tdiv (wrapI32
      (wrapI32 (wrapI32 (p + i32OfU32 len) - 1) - 1)) WINDOW_SIZE) := by
  have hrl : i32OfU32 len = (len : Int) := by
    unfold i32OfU32
    exact wrapI32_eq_self _ (by omega) (by omega)
  rw [hrl, mid_end_offset (p + (len : Int)) (by omega) (by omega),
    show p + (len : Int) - 2 ^ 32 - 2 =
      -(((2 ^ 32 + 2 - (p + (len : Int))).toNat : Nat) : Int) from by omega,
    show WINDOW_SIZE = ((16384 : Nat) : Int) from rfl, tdiv_neg_ofNat,
    usizeOfI32_neg _ (by omega) (by omega)]
  omega

/-- In the extreme overflow regime (true end above `2^32 - 16383`) the
computed window top wraps all the way back to 0. -/
theorem linear_hi_high (p : Int) (len : Nat) (h2 : 1 ≤ len)
    (h3 : len ≤ 2 ^ 31 - 1) (hp : p ≤ 2 ^ 31 - 1)
    (hhigh : 2 ^ 32 - 16383 < p + len - 1) :
    usizeOfI32 (Int.tdiv (wrapI32
      (wrapI32 (wrapI32 (p + i32OfU32 len) - 1) - 1)) WINDOW_SIZE) = 0 := by
  have hrl : i32OfU32 len = (len : Int) := by
    unfold i32OfU32
    exact wrapI32_eq_self _ (by omega) (by omega)
  rw [hrl, mid_end_offset (p + (len : Int)) (by omega) (by omega),
    show p + (len : Int) - 2 ^ 32 - 2 =
      -(((2 ^ 32 + 2 - (p + (len : Int))).toNat : Nat) : Int) from by omega,
    show WINDOW_SIZE = ((16384 : Nat) : Int) from rfl, tdiv_neg_ofNat]
  unfold usizeOfI32
  omega

/-- In the in-range regime the computed window top is the true
`(end - 1) / WINDOW_SIZE`. -/
theorem linear_hi_safe (p : Int) (len : Nat) (h1 : 1 ≤ p) (h2 : 1 ≤ len)
    (h3 : len ≤ 2 ^ 31 - 1) (h4 : p + len - 1 ≤ 2 ^ 31) :
    usizeOfI32 (Int.tdiv (wrapI32
      (wrapI32 (wrapI32 (p + i32OfU32 len) - 1) - 1)) WINDOW_SIZE) =
      (p + len - 2).toNat / 16384 := by
  have hrl : i32OfU32 len = (len : Int) := by
    unfold i32OfU32
    exact wrapI32_eq_self _ (by omega) (by omega)
  have hs : wrapI32 (wrapI32 (wrapI32 (p + (len : Int)) - 1) - 1) =
      p + (len : Int) - 2 := by
    have hx := safe_end_offset (p + (len : Int) - 1) (by omega) (by omega)
    rw [show p + (len : Int) - 1 + 1 = p + (len : Int) from by ring] at hx
    rw [hx]
    ring
  rw [hrl, hs, show WINDOW_SIZE = ((16384 : Nat) : Int) from rfl,
    tdiv_toNat _ _ (by omega)]
  exact usizeOfI32_ofNat ((p + (len : Int) - 2).toNat / 16384) (by omega)

/-! ## C8: unchecked linear-index slot writes -/

/-- C8 (amended): with the default-sized interval table, `add_record` on a
record with in-range coordinates cannot fail, and a record whose true end
lies in `(2^31, 2^32 - 16383]` drives the unchecked index out of range and
panics; but a record whose end exceeds `2^32 - 16383` (reachable when start
and reference length both approach `i32::MAX`) wraps so far that the window
range becomes empty and `add_record` succeeds while writing no slot at all,
so the original claim's "any end above `2^31` panics" does not hold. -/
theorem add_record_bounds_trichotomy (b : Builder) (r : BamRecord) (c : Chunk)
    (hlen : b.intervals.length = MAX_INTERVAL_COUNT)
    (h1 : 1 ≤ r.position) (hp : r.position ≤ 2 ^ 31 - 1)
    (h2 : 1 ≤ r.reference_len) (h3 : r.reference_len ≤ 2 ^ 31 - 1) :
    (r.position + r.reference_len - 1 ≤ 2 ^ 31 →
      (b.add_record r c).isSome = true) ∧
    (2 ^ 31 < r.position + r.reference_len - 1 →
      r.position + r.reference_len - 1 ≤ 2 ^ 32 - 16383 →
      b.add_record r c = none) ∧
    (2 ^ 32 - 16383 < r.position + r.reference_len - 1 →
      ∃ b', b.add_record r c = some b' ∧ b'.intervals = b.intervals) := by
  have hlen' : b.intervals.length = 131072 := by
    rw [hlen]
    rfl
  refine ⟨fun hsafe => ?_, fun hm1 hm2 => ?_, fun hh => ?_⟩
  · obtain ⟨l', hl, _, _⟩ := writeRange_spec b.intervals
      ((r.position - 1).toNat / 16384)
      ((r.position + r.reference_len - 2).toNat / 16384) c.start
      (by rw [hlen']; omega)
    unfold Builder.add_record
    rw [update_linear_index_eq, linear_lo_val r.position h1 hp,
      linear_hi_safe r.position r.reference_len h1 h2 h3 hsafe, hl]
    rfl
  · have hmid := linear_hi_mid r.position r.reference_len h2 h3 hm1 hm2
    have hnone : update_linear_index b.intervals r c = none := by
      rw [update_linear_index_eq, linear_lo_val r.position h1 hp]
      exact writeRange_none _ _ _ _ (by omega) (by rw [hlen']; omega)
    unfold Builder.add_record
    rw [hnone]
  · have hhi0 := linear_hi_high r.position r.reference_len h2 h3 hp hh
    have hsome : update_linear_index b.intervals r c = some b.intervals := by
      rw [update_linear_index_eq, linear_lo_val r.position h1 hp, hhi0]
      exact writeRange_empty _ _ _ _ (by omega)
    refine ⟨Builder.mk (update_bins b.bin_builders r.bin c) b.intervals
        (min b.start_position c.start) (max b.end_position c.end_)
        (b.mapped_record_count + if r.unmapped then 0 else 1)
        (b.unmapped_record_count + if r.unmapped then 1 else 0), ?_, rfl⟩
    unfold Builder.add_record
    rw [hsome]

/-- C8 counterexample: the record at position `i32::MAX` with reference
length `i32::MAX` has true end `2^32 - 3 > 2^31`, yet `add_record` on the
default builder succeeds (no panic): the `i32` computation wraps so far that
the window range is empty. -/
theorem add_record_overflow_no_panic :
    2 ^ 31 < (2147483647 : Int) + (2147483647 : Nat) - 1 ∧
    (Builder.default.add_record ⟨2147483647, 2147483647, 4681, false⟩
      ⟨55, 89⟩).isSome = true := by
  refine ⟨by norm_num, ?_⟩
  rfl

/-- Witness for C8's trichotomy at concrete records on the default builder:
end 5 (in range) succeeds, end `2^31 + 1` panics, end `2^32 - 3` succeeds
with the interval table untouched. -/
theorem add_record_bounds_trichotomy_witness :
    (Builder.default.add_record ⟨2, 4, 4681, false⟩ ⟨55, 89⟩).isSome = true ∧
    Builder.default.add_record ⟨2147483647, 3, 4681, false⟩ ⟨55, 89⟩ =
      none ∧
    (Builder.default.add_record ⟨2147483647, 2147483647, 4681, false⟩
        ⟨55, 89⟩).map Builder.intervals = some Builder.default.intervals := by
  have hlen : Builder.default.intervals.length = MAX_INTERVAL_COUNT := by
    simp [Builder.default]
  refine ⟨(add_record_bounds_trichotomy Builder.default ⟨2, 4, 4681, false⟩
      ⟨55, 89⟩ hlen (by norm_num) (by norm_num) (by norm_num)
      (by norm_num)).1 (by norm_num),
    (add_record_bounds_trichotomy Builder.default ⟨2147483647, 3, 4681, false⟩
      ⟨55, 89⟩ hlen (by norm_num) (by norm_num) (by norm_num)
      (by norm_num)).2.1 (by norm_num) (by norm_num),
    ?_⟩
  obtain ⟨b', hb, hint⟩ := (add_record_bounds_trichotomy Builder.default
    ⟨2147483647, 2147483647, 4681, false⟩ ⟨55, 89⟩ hlen (by norm_num)
    (by norm_num) (by norm_num) (by norm_num)).2.2 (by norm_num)
  rw [hb]
  show some b'.intervals = _
  rw [hint]

/-! ## Builder-pipeline helper lemmas -/

theorem update_linear_index_length (l : List VirtualPosition) (r : BamRecord)
    (c : Chunk) (l' : List VirtualPosition)
    (h : update_linear_index l r c = some l') : l'.length = l.length := by
  simp only [update_linear_index, writeRange] at h
  split at h
  · split at h
    · injection h with h2
      rw [← h2, setRange_length]
    · exact absurd h (by simp)
  · injection h with h2
    rw [← h2]

theorem addRecords_fields (adds : List (BamRecord × Chunk)) :
    ∀ (b b' : Builder), addRecords b adds = some b' →
      b'.bin_builders =
        List.foldl (fun m q => update_bins m q.1.bin q.2) b.bin_builders adds ∧
      b'.start_position =
        List.foldl (fun s q => min s q.2.start) b.start_position adds ∧
      b'.end_position =
        List.foldl (fun s q => max s q.2.end_) b.end_position adds ∧
      b'.mapped_record_count =
        b.mapped_record_count + adds.countP (fun q => !q.1.unmapped) ∧
      b'.unmapped_record_count =
        b.unmapped_record_count + adds.countP (fun q => q.1.unmapped) ∧
      b'.intervals.length = b.intervals.length := by
  induction adds with
  | nil =>
      intro b b' h
      have hb : b = b' := by
        simpa [addRecords] using h
      subst hb
      simp
  | cons q rest ih =>
      obtain ⟨r, c⟩ := q
      intro b b' h
      unfold addRecords at h
      cases hab : b.add_record r c with
      | none => rw [hab] at h; exact absurd h (by simp)
      | some b1 =>
          rw [hab] at h
          unfold Builder.add_record at hab
          cases hu : update_linear_index b.intervals r c with
          | none => rw [hu] at hab; exact absurd hab (by simp)
          | some iv =>
              rw [hu] at hab
              injection hab with hab
              obtain ⟨f1, f2, f3, f4, f5, f6⟩ := ih b1 b' h
              subst hab
              refine ⟨?_, ?_, ?_, ?_, ?_, ?_⟩
              · rw [List.foldl_cons]; exact f1
              · rw [List.foldl_cons]; exact f2
              · rw [List.foldl_cons]; exact f3
              · rw [List.countP_cons, f4]
                cases hm : r.unmapped <;> simp [hm] <;> omega
              · rw [List.countP_cons, f5]
                cases hm : r.unmapped <;> simp [hm] <;> omega
              · rw [f6]
                exact update_linear_index_length b.intervals r c iv hu

theorem add_record_safe_eq (b : Builder) (r : BamRecord) (c : Chunk)
    (h1 : 1 ≤ r.position) (hp : r.position ≤ 2 ^ 31 - 1)
    (h2 : 1 ≤ r.reference_len) (h3 : r.reference_len ≤ 2 ^ 31 - 1)
    (h4 : r.position + r.reference_len - 1 ≤ 2 ^ 31)
    (h5 : (r.position + r.reference_len - 2).toNat / 16384 <
      b.intervals.length) :
    ∃ iv, b.add_record r c =
      some (Builder.mk (update_bins b.bin_builders r.bin c) iv
        (min b.start_position c.start) (max b.end_position c.end_)
        (b.mapped_record_count + if r.unmapped then 0 else 1)
        (b.unmapped_record_count + if r.unmapped then 1 else 0)) ∧
      iv.length = b.intervals.length := by
  obtain ⟨l', hl, hlen, _⟩ := writeRange_spec b.intervals
    ((r.position - 1).toNat / 16384)
    ((r.position + r.reference_len - 2).toNat / 16384) c.start h5
  refine ⟨l', ?_, hlen⟩
  unfold Builder.add_record
  rw [update_linear_index_eq, linear_lo_val r.position h1 hp,
    linear_hi_safe r.position r.reference_len h1 h2 h3 h4, hl]

theorem addRecords_nil (b : Builder) : addRecords b [] = some b := rfl

theorem addRecords_cons (b : Builder) (r : BamRecord) (c : Chunk)
    (rest : List (BamRecord × Chunk)) (b1 : Builder)
    (h : b.add_record r c = some b1) :
    addRecords b ((r, c) :: rest) = addRecords b1 rest := by
  conv_lhs => unfold addRecords
  rw [h]

theorem addRecords_testAdds :
    ∃ b', addRecords Builder.default testAdds = some b' ∧
      b'.bin_builders = [(4681, [⟨55, 144⟩])] ∧
      b'.start_position = 55 ∧ b'.end_position = 144 ∧
      b'.mapped_record_count = 1 ∧ b'.unmapped_record_count = 1 := by
  obtain ⟨iv1, h1, hlen1⟩ := add_record_safe_eq Builder.default
    ⟨2, 4, 4681, false⟩ ⟨55, 89⟩ (by norm_num) (by norm_num) (by norm_num)
    (by norm_num) (by norm_num) (by simp [Builder.default]; decide)
  have h1' : Builder.default.add_record ⟨2, 4, 4681, false⟩ ⟨55, 89⟩ =
      some (Builder.mk [(4681, [⟨55, 89⟩])] iv1 55 89 1 0) := h1
  obtain ⟨iv2, h2, hlen2⟩ := add_record_safe_eq
    (Builder.mk [(4681, [⟨55, 89⟩])] iv1 55 89 1 0)
    ⟨6, 2, 4681, true⟩ ⟨89, 144⟩ (by norm_num) (by norm_num) (by norm_num)
    (by norm_num) (by norm_num)
    (by show _ < iv1.length; rw [hlen1]; simp [Builder.default]; decide)
  have h2' : (Builder.mk [(4681, [⟨55, 89⟩])] iv1 55 89 1 0).add_record
      ⟨6, 2, 4681, true⟩ ⟨89, 144⟩ =
      some (Builder.mk [(4681, [⟨55, 144⟩])] iv2 55 144 1 1) := h2
  refine ⟨Builder.mk [(4681, [⟨55, 144⟩])] iv2 55 144 1 1, ?_, rfl, rfl, rfl,
    rfl, rfl⟩
  rw [show testAdds = (⟨⟨2, 4, 4681, false⟩, ⟨55, 89⟩⟩ : BamRecord × Chunk) ::
    [(⟨6, 2, 4681, true⟩, ⟨89, 144⟩)] from rfl]
  rw [addRecords_cons _ _ _ _ _ h1', addRecords_cons _ _ _ _ _ h2',
    addRecords_nil]

theorem update_bins_ne_nil (m : BinBuilders) (binId : Nat) (c : Chunk) :
    update_bins m binId c ≠ [] := by
  cases m with
  | nil => simp [update_bins]
  | cons kv rest =>
      obtain ⟨k, cs⟩ := kv
      unfold update_bins
      split <;> simp

theorem foldl_update_bins_ne_nil (adds : List (BamRecord × Chunk)) :
    ∀ m : BinBuilders, m ≠ [] ∨ adds ≠ [] →
      List.foldl (fun acc q => update_bins acc q.1.bin q.2) m adds ≠ [] := by
  induction adds with
  | nil =>
      intro m h
      rcases h with h | h
      · simpa using h
      · exact absurd rfl h
  | cons q rest ih =>
      intro m _
      rw [List.foldl_cons]
      exact ih _ (Or.inl (update_bins_ne_nil m q.1.bin q.2))

/-! ## C7: building with no records yields the canonical empty value -/

/-- C7: `build()` on a builder to which no record was ever added is not an
error and returns exactly the default `ReferenceSequence` (no bins, metadata
`None`); after at least one successful `add_record`, `build()` returns a
`ReferenceSequence` whose metadata is `Some`. -/
theorem build_empty_default (b' : Builder)
    (adds : List (BamRecord × Chunk)) (hne : adds ≠ [])
    (h : addRecords Builder.default adds = some b') :
    Builder.default.build = ReferenceSequence.default ∧
    ReferenceSequence.default.bins = [] ∧
    ReferenceSequence.default.metadata = none ∧
    ∃ m, (Builder.build b').metadata = some m := by
  refine ⟨rfl, rfl, rfl, ?_⟩
  have hbb := (addRecords_fields adds Builder.default b' h).1
  have hnonempty : b'.bin_builders ≠ [] := by
    rw [hbb]
    exact foldl_update_bins_ne_nil adds _ (Or.inr hne)
  unfold Builder.build
  rw [if_neg hnonempty]
  exact ⟨_, rfl⟩

/-- Witness for C7: the no-record build equals the default value, and the
two-record `test_build` scenario produces `Some` metadata. -/
theorem build_empty_default_witness :
    Builder.default.build = ReferenceSequence.default ∧
    ReferenceSequence.default.metadata = none ∧
    (addRecords Builder.default testAdds).map
        (fun b => (Builder.build b).metadata.isSome) = some true := by
  obtain ⟨b', h, _⟩ := addRecords_testAdds
  obtain ⟨g1, _, g3, g4⟩ := build_empty_default b' testAdds (by decide) h
  refine ⟨g1, g3, ?_⟩
  rw [h]
  show some (Builder.build b').metadata.isSome = _
  obtain ⟨m, hm⟩ := g4
  rw [hm]
  rfl

/-! ## Fold lemmas for the metadata aggregator -/

theorem foldl_min_le_init (l : List (BamRecord × Chunk)) :
    ∀ a : Nat, List.foldl (fun s q => min s q.2.start) a l ≤ a := by
  induction l with
  | nil => intro a; exact le_rfl
  | cons x rest ih =>
      intro a
      rw [List.foldl_cons]
      exact le_trans (ih _) (min_le_left _ _)

theorem foldl_min_le_mem (l : List (BamRecord × Chunk)) :
    ∀ (a : Nat) (p : BamRecord × Chunk), p ∈ l →
      List.foldl (fun s q => min s q.2.start) a l ≤ p.2.start := by
  induction l with
  | nil => intro a p hp; exact absurd hp (List.not_mem_nil p)
  | cons x rest ih =>
      intro a p hp
      rw [List.foldl_cons]
      rcases List.mem_cons.mp hp with rfl | hp'
      · exact le_trans (foldl_min_le_init rest _) (min_le_right _ _)
      · exact ih _ p hp'

theorem foldl_min_choice (l : List (BamRecord × Chunk)) :
    ∀ a : Nat, List.foldl (fun s q => min s q.2.start) a l = a ∨
      ∃ p ∈ l, List.foldl (fun s q => min s q.2.start) a l = p.2.start := by
  induction l with
  | nil => intro a; exact Or.inl rfl
  | cons x rest ih =>
      intro a
      rw [List.foldl_cons]
      rcases ih (min a x.2.start) with hc | ⟨p, hp, hc⟩
      · rcases min_choice a x.2.start with hm | hm
        · exact Or.inl (by rw [hc, hm])
        · exact Or.inr ⟨x, List.mem_cons_self x rest, by rw [hc, hm]⟩
      · exact Or.inr ⟨p, List.mem_cons_of_mem x hp, hc⟩

theorem foldl_max_ge_init (l : List (BamRecord × Chunk)) :
    ∀ a : Nat, a ≤ List.foldl (fun s q => max s q.2.end_) a l := by
  induction l with
  | nil => intro a; exact le_rfl
  | cons x rest ih =>
      intro a
      rw [List.foldl_cons]
      exact le_trans (le_max_left _ _) (ih _)

theorem foldl_max_ge_mem (l : List (BamRecord × Chunk)) :
    ∀ (a : Nat) (p : BamRecord × Chunk), p ∈ l →
      p.2.end_ ≤ List.foldl (fun s q => max s q.2.end_) a l := by
  induction l with
  | nil => intro a p hp; exact absurd hp (List.not_mem_nil p)
  | cons x rest ih =>
      intro a p hp
      rw [List.foldl_cons]
      rcases List.mem_cons.mp hp with rfl | hp'
      · exact le_trans (le_max_right _ _) (foldl_max_ge_init rest _)
      · exact ih _ p hp'

theorem foldl_max_choice (l : List (BamRecord × Chunk)) :
    ∀ a : Nat, List.foldl (fun s q => max s q.2.end_) a l = a ∨
      ∃ p ∈ l, List.foldl (fun s q => max s q.2.end_) a l = p.2.end_ := by
  induction l with
  | nil => intro a; exact Or.inl rfl
  | cons x rest ih =>
      intro a
      rw [List.foldl_cons]
      rcases ih (max a x.2.end_) with hc | ⟨p, hp, hc⟩
      · rcases max_choice a x.2.end_ with hm | hm
        · exact Or.inl (by rw [hc, hm])
        · exact Or.inr ⟨x, List.mem_cons_self x rest, by rw [hc, hm]⟩
      · exact Or.inr ⟨p, List.mem_cons_of_mem x hp, hc⟩

/-! ## C6: metadata is the min/max/count aggregate, order-invariantly -/

/-- C6: after any successful sequence of `add_record` calls, the builder's
metadata fields are: mapped/unmapped counts of the records by their unmapped
flag, `start_position` the minimum chunk start seen, `end_position` the
maximum chunk end seen; and all four fields are invariant under permutation
of the `add_record` calls. -/
theorem metadata_min_max_counts (adds : List (BamRecord × Chunk))
    (b' : Builder) (h : addRecords Builder.default adds = some b')
    (hwf : ∀ p ∈ adds, p.2.start ≤ VirtualPosition.maxVal) :
    b'.mapped_record_count = adds.countP (fun q => !q.1.unmapped) ∧
    b'.unmapped_record_count = adds.countP (fun q => q.1.unmapped) ∧
    (∀ p ∈ adds, b'.start_position ≤ p.2.start ∧ p.2.end_ ≤ b'.end_position) ∧
    (adds ≠ [] → (∃ p ∈ adds, b'.start_position = p.2.start) ∧
      ∃ p ∈ adds, b'.end_position = p.2.end_) ∧
    (∀ (adds2 : List (BamRecord × Chunk)) (b'' : Builder), adds2.Perm adds →
      addRecords Builder.default adds2 = some b'' →
      b''.start_position = b'.start_position ∧
      b''.end_position = b'.end_position ∧
      b''.mapped_record_count = b'.mapped_record_count ∧
      b''.unmapped_record_count = b'.unmapped_record_count) := by
  obtain ⟨_, f2, f3, f4, f5, _⟩ := addRecords_fields adds Builder.default b' h
  refine ⟨by rw [f4]; exact Nat.zero_add _, by rw [f5]; exact Nat.zero_add _,
    fun p hp => ⟨?_, ?_⟩, fun hne => ⟨?_, ?_⟩, fun adds2 b'' hperm h2 => ?_⟩
  · rw [f2]
    exact foldl_min_le_mem adds _ p hp
  · rw [f3]
    exact foldl_max_ge_mem adds _ p hp
  · rcases foldl_min_choice adds Builder.default.start_position with hc |
      ⟨p, hp, hc⟩
    · obtain ⟨q, rest, rfl⟩ := List.exists_cons_of_ne_nil hne
      have hle := foldl_min_le_mem (q :: rest)
        Builder.default.start_position q (List.mem_cons_self q rest)
      have hmax := hwf q (List.mem_cons_self q rest)
      refine ⟨q, List.mem_cons_self q rest, ?_⟩
      rw [f2]
      refine le_antisymm hle ?_
      rw [hc]
      exact hmax
    · exact ⟨p, hp, by rw [f2, hc]⟩
  · rcases foldl_max_choice adds Builder.default.end_position with hc |
      ⟨p, hp, hc⟩
    · obtain ⟨q, rest, rfl⟩ := List.exists_cons_of_ne_nil hne
      have hge := foldl_max_ge_mem (q :: rest)
        Builder.default.end_position q (List.mem_cons_self q rest)
      refine ⟨q, List.mem_cons_self q rest, ?_⟩
      rw [f3]
      refine le_antisymm ?_ hge
      rw [hc]
      exact Nat.zero_le _
    · exact ⟨p, hp, by rw [f3, hc]⟩
  · obtain ⟨_, g2, g3, g4, g5, _⟩ :=
      addRecords_fields adds2 Builder.default b'' h2
    refine ⟨?_, ?_, ?_, ?_⟩
    · rw [f2, g2]
      exact hperm.foldl_eq'
        (fun x _ y _ z => min_right_comm z x.2.start y.2.start) _
    · rw [f3, g3]
      exact hperm.foldl_eq'
        (fun x _ y _ z => sup_right_comm z x.2.end_ y.2.end_) _
    · rw [f4, g4, hperm.countP_eq]
    · rw [f5, g5, hperm.countP_eq]

/-- Witness for C6 on the `test_build` scenario: one mapped and one unmapped
record, with the builder start and end positions bracketing both chunks. -/
theorem metadata_min_max_counts_witness :
    (addRecords Builder.default testAdds).map
        (fun b => (b.mapped_record_count, b.unmapped_record_count)) =
      some (testAdds.countP (fun q => !q.1.unmapped),
        testAdds.countP (fun q => q.1.unmapped)) ∧
    (addRecords Builder.default testAdds).map
        (fun b => decide (b.start_position ≤ 55 ∧ 144 ≤ b.end_position)) =
      some true := by
  obtain ⟨b', h, _⟩ := addRecords_testAdds
  have hm := metadata_min_max_counts testAdds b' h (by decide)
  have hq := hm.2.2.1 (⟨2, 4, 4681, false⟩, ⟨55, 89⟩) (by decide)
  have hq2 := hm.2.2.1 (⟨6, 2, 4681, true⟩, ⟨89, 144⟩) (by decide)
  rw [h]
  constructor
  · show some (b'.mapped_record_count, b'.unmapped_record_count) = _
    rw [hm.1, hm.2.1]
  · show some (decide (b'.start_position ≤ 55 ∧ 144 ≤ b'.end_position)) = _
    rw [decide_eq_true ⟨hq.1, hq2.2⟩]

/-! ## Bin-builder association-list lemmas -/

theorem findChunks_update_bins (m : BinBuilders) (binId j : Nat) (c : Chunk) :
    findChunks (update_bins m binId c) j =
      if j = binId then some (addChunk ((findChunks m binId).getD []) c)
      else findChunks m j := by
  induction m with
  | nil =>
      by_cases hj : j = binId
      · subst hj
        simp [update_bins, findChunks]
      · simp [update_bins, findChunks, hj, Ne.symm hj]
  | cons kv rest ih =>
      obtain ⟨k, cs⟩ := kv
      by_cases hk : k = binId
      · subst hk
        by_cases hj : j = k
        · subst hj
          simp [update_bins, findChunks]
        · simp [update_bins, findChunks, hj, Ne.symm hj]
      · by_cases hj : j = k
        · subst hj
          simp [update_bins, findChunks, hk, Ne.symm hk]
        · simp [update_bins, findChunks, hk, hj, Ne.symm hj, ih]

theorem mem_keys_update_bins (m : BinBuilders) (binId j : Nat) (c : Chunk) :
    j ∈ (update_bins m binId c).map Prod.fst ↔
      j ∈ m.map Prod.fst ∨ j = binId := by
  induction m with
  | nil => simp [update_bins]
  | cons kv rest ih =>
      obtain ⟨k, cs⟩ := kv
      by_cases hk : k = binId
      · subst hk
        simp [update_bins]
        tauto
  -- falls through below
      · simp [update_bins, hk, ih]
        tauto

theorem nodup_update_bins (m : BinBuilders) (binId : Nat) (c : Chunk)
    (h : (m.map Prod.fst).Nodup) :
    ((update_bins m binId c).map Prod.fst).Nodup := by
  induction m with
  | nil => simp [update_bins]
  | cons kv rest ih =>
      obtain ⟨k, cs⟩ := kv
      simp only [List.map_cons, List.nodup_cons] at h
      by_cases hk : k = binId
      · subst hk
        simpa [update_bins, List.nodup_cons] using h
      · have := ih h.2
        simp only [update_bins, if_neg hk, List.map_cons, List.nodup_cons]
        refine ⟨fun hc => ?_, this⟩
        rcases (mem_keys_update_bins rest binId k c).mp hc with hm | hm
        · exact h.1 hm
        · exact hk hm

theorem findChunks_eq_of_mem (m : BinBuilders)
    (hnd : (m.map Prod.fst).Nodup) (k : Nat) (cs : List Chunk)
    (hm : (k, cs) ∈ m) : findChunks m k = some cs := by
  induction m with
  | nil => exact absurd hm (List.not_mem_nil _)
  | cons kv rest ih =>
      obtain ⟨k0, cs0⟩ := kv
      simp only [List.map_cons, List.nodup_cons] at hnd
      rcases List.mem_cons.mp hm with heq | hm'
      · injection heq with h1 h2
        subst h1
        subst h2
        simp [findChunks]
      · have hk : k0 ≠ k := by
          intro hc
          subst hc
          exact hnd.1 (List.mem_map.mpr ⟨(k0, cs), hm', rfl⟩)
        simp only [findChunks, if_neg hk]
        exact ih hnd.2 hm'

theorem findChunks_some_mem (m : BinBuilders) (j : Nat) (cs : List Chunk)
    (h : findChunks m j = some cs) : (j, cs) ∈ m := by
  induction m with
  | nil => exact absurd h (by simp [findChunks])
  | cons kv rest ih =>
      obtain ⟨k, cs0⟩ := kv
      by_cases hk : k = j
      · subst hk
        simp only [findChunks, if_pos rfl] at h
        injection h with h
        subst h
        exact List.mem_cons_self _ _
      · simp only [findChunks, if_neg hk] at h
        exact List.mem_cons_of_mem _ (ih h)

theorem chunksFor_ne_nil_of_mem (adds : List (BamRecord × Chunk)) :
    ∀ p ∈ adds, chunksFor adds p.1.bin ≠ [] := by
  induction adds with
  | nil => intro p hp; exact absurd hp (List.not_mem_nil _)
  | cons q rest ih =>
      intro p hp
      obtain ⟨r, c⟩ := q
      rcases List.mem_cons.mp hp with rfl | hp'
      · simp [chunksFor]
      · unfold chunksFor
        by_cases hb : r.bin = p.1.bin
        · simp [hb]
        · simp only [if_neg hb]
          exact ih p hp'

theorem addChunk_ne_nil (cs : List Chunk) (c : Chunk) : addChunk cs c ≠ [] := by
  induction cs with
  | nil => simp [addChunk]
  | cons x rest ih =>
      cases rest with
      | nil =>
          unfold addChunk
          split <;> simp
      | cons y t => simp [addChunk]

/-- The per-bin chunk list of the folded bin builders is the `addChunk` fold
of the chunks added under that bin id. -/
theorem foldl_update_bins_findChunks (adds : List (BamRecord × Chunk)) :
    ∀ (m : BinBuilders) (j : Nat),
      findChunks
        (List.foldl (fun acc q => update_bins acc q.1.bin q.2) m adds) j =
      if chunksFor adds j = [] then findChunks m j
      else some (List.foldl addChunk ((findChunks m j).getD [])
        (chunksFor adds j)) := by
  induction adds with
  | nil =>
      intro m j
      simp [chunksFor]
  | cons q rest ih =>
      intro m j
      obtain ⟨r, c⟩ := q
      rw [List.foldl_cons]
      rw [ih (update_bins m r.bin c) j]
      rw [findChunks_update_bins m r.bin j c]
      by_cases hb : j = r.bin
      · subst hb
        have hX : (if r.bin = r.bin then
            some (addChunk ((findChunks m r.bin).getD []) c)
            else findChunks m r.bin) =
            some (addChunk ((findChunks m r.bin).getD []) c) := if_pos rfl
        simp only [hX]
        have hcf : chunksFor ((r, c) :: rest) r.bin =
            c :: chunksFor rest r.bin := by
          conv_lhs => unfold chunksFor
          rw [if_pos rfl]
        rw [hcf,
          if_neg (show ¬(c :: chunksFor rest r.bin = []) from by simp)]
        by_cases hr : chunksFor rest r.bin = []
        · rw [if_pos hr, hr]
          simp
        · rw [if_neg hr]
          simp
      · have hrb : ¬r.bin = j := fun hx => hb hx.symm
        have hcf : chunksFor ((r, c) :: rest) j = chunksFor rest j := by
          conv_lhs => unfold chunksFor
          rw [if_neg hrb]
        simp only [if_neg hb]
        rw [hcf]

theorem foldl_update_bins_nodup (adds : List (BamRecord × Chunk)) :
    ∀ m : BinBuilders, (m.map Prod.fst).Nodup →
      ((List.foldl (fun acc q => update_bins acc q.1.bin q.2) m adds).map
        Prod.fst).Nodup := by
  induction adds with
  | nil => intro m h; simpa using h
  | cons q rest ih =>
      intro m h
      rw [List.foldl_cons]
      exact ih _ (nodup_update_bins m q.1.bin q.2 h)

/-! ## C5: chunks within a bin are merged, not all retained -/

/-- C5 (amended): in the built `ReferenceSequence`, every bin's chunk list is
the `addChunk` fold of the chunks added under that bin id in call order —
where `addChunk` appends a chunk unless its start is at most the current last
chunk's end, in which case the two are merged — and every added record's bin
id is represented.  (The original claim, that every chunk is retained
unmerged in insertion order, fails: see the counterexample.) -/
theorem built_bin_chunks_fold (adds : List (BamRecord × Chunk)) (b' : Builder)
    (h : addRecords Builder.default adds = some b') :
    (∀ bin ∈ (Builder.build b').bins,
      bin.chunks = List.foldl addChunk [] (chunksFor adds bin.id) ∧
      chunksFor adds bin.id ≠ []) ∧
    ∀ p ∈ adds, ∃ bin ∈ (Builder.build b').bins, bin.id = p.1.bin := by
  have hbb := (addRecords_fields adds Builder.default b' h).1
  have hnodup : (b'.bin_builders.map Prod.fst).Nodup := by
    rw [hbb]
    exact foldl_update_bins_nodup adds _ (by simp [Builder.default])
  have hfind : ∀ j, findChunks b'.bin_builders j =
      if chunksFor adds j = [] then none
      else some (List.foldl addChunk [] (chunksFor adds j)) := by
    intro j
    rw [hbb, foldl_update_bins_findChunks adds Builder.default.bin_builders j]
    rfl
  constructor
  · intro bin hbin
    unfold Builder.build at hbin
    by_cases hbe : b'.bin_builders = []
    · rw [if_pos hbe] at hbin
      exact absurd hbin (by simp [ReferenceSequence.default])
    · rw [if_neg hbe] at hbin
      obtain ⟨⟨k, cs⟩, hmem, rfl⟩ := List.mem_map.mp hbin
      have hfk := findChunks_eq_of_mem b'.bin_builders hnodup k cs hmem
      rw [hfind k] at hfk
      by_cases hk : chunksFor adds k = []
      · rw [if_pos hk] at hfk
        exact absurd hfk (by simp)
      · rw [if_neg hk] at hfk
        injection hfk with hfk
        exact ⟨hfk.symm, hk⟩
  · intro p hp
    have hne := chunksFor_ne_nil_of_mem adds p hp
    have hf := hfind p.1.bin
    rw [if_neg hne] at hf
    have hmem := findChunks_some_mem b'.bin_builders p.1.bin _ hf
    have hbe : b'.bin_builders ≠ [] := by
      intro hc
      rw [hc] at hmem
      exact List.not_mem_nil _ hmem
    refine ⟨Bin.mk p.1.bin (List.foldl addChunk [] (chunksFor adds p.1.bin)),
      ?_, rfl⟩
    unfold Builder.build
    rw [if_neg hbe]
    exact List.mem_map.mpr ⟨_, hmem, rfl⟩

/-- C5 counterexample: the `test_build` scenario adds chunks `(55,89)` then
`(89,144)` under bin 4681, yet the built reference sequence holds the single
merged chunk `(55,144)` — not the two inserted chunks — refuting the claim
that every added chunk is retained in insertion order without merging. -/
theorem built_bin_chunks_merged_cex :
    (addRecords Builder.default testAdds).map
        (fun b => (Builder.build b).bins.map Bin.chunks) =
      some [[⟨55, 144⟩]] ∧
    some [[(⟨55, 144⟩ : Chunk)]] ≠
      some [[(⟨55, 89⟩ : Chunk), ⟨89, 144⟩]] := by
  obtain ⟨b', h, hbb, _⟩ := addRecords_testAdds
  have hbins : (Builder.build b').bins.map Bin.chunks = [[⟨55, 144⟩]] := by
    unfold Builder.build
    rw [if_neg (by rw [hbb]; simp)]
    show (b'.bin_builders.map fun p => Bin.mk p.1 p.2).map Bin.chunks = _
    rw [hbb]
    rfl
  rw [h]
  exact ⟨congrArg some hbins, by decide⟩

/-- Witness for C5's amended statement on the `test_build` scenario: the one
produced bin's chunk list is exactly the `addChunk` fold of the two added
chunks. -/
theorem built_bin_chunks_fold_witness :
    (addRecords Builder.default testAdds).map
        (fun b => (Builder.build b).bins.map Bin.chunks) =
      some [List.foldl addChunk [] (chunksFor testAdds 4681)] := by
  obtain ⟨b', h, hbb, _⟩ := addRecords_testAdds
  have hbins : (Builder.build b').bins = [Bin.mk 4681 [⟨55, 144⟩]] := by
    unfold Builder.build
    rw [if_neg (by rw [hbb]; simp)]
    show b'.bin_builders.map (fun p => Bin.mk p.1 p.2) = _
    rw [hbb]
    rfl
  have hfold := ((built_bin_chunks_fold testAdds b' h).1
    (Bin.mk 4681 [⟨55, 144⟩]) (by rw [hbins]; exact List.mem_cons_self _ _)).1
  rw [h]
  show some ((Builder.build b').bins.map Bin.chunks) = _
  rw [hbins]
  show some [[(⟨55, 144⟩ : Chunk)]] = _
  rw [show [(⟨55, 144⟩ : Chunk)] = (Bin.mk 4681 [⟨55, 144⟩]).chunks from rfl,
    hfold]
